import Mathlib

/-
Verification of the slchess bitboard header (sources/bitboard.hpp).

The embedding models the 64-bit target the repository's tests fix
(`unsigned long` is 8 bytes): a `std::bitset<N>` is stored as an array of
64-bit words, so the physically allocated storage holds
`((N + 63) / 64) * 64` bits.  The bitset state is modelled as a total
function from physical bit offsets to `Bool`; all defined operations keep
bits at offsets not less than `N` equal to `false` (the bitset invariant),
while the single-bit accessors may address any physical offset, which is
exactly the permissive-mode slack access the header documents.

Exceptions (`std::out_of_range`) are modelled with `Except String`, the
string being the message the header throws.
-/

namespace slchess

/-- Number of bits of the native word, `sizeof(unsigned long) * 8` on the
64-bit target the tests require. -/
def wordBits : Nat := 64

/-- Model of `class File`: a wrapper over a `size_t` value
(bitboard.hpp, lines 27-34). -/
structure File where
  value : Nat
  deriving DecidableEq, Repr

/-- Model of the implicit conversion `operator size_t() const` of `File`. -/
def File.toNat (f : File) : Nat := f.value

/-- Model of `class Rank`: a wrapper over a `size_t` value
(bitboard.hpp, lines 44-51). -/
structure Rank where
  value : Nat
  deriving DecidableEq, Repr

/-- Model of the implicit conversion `operator size_t() const` of `Rank`. -/
def Rank.toNat (r : Rank) : Nat := r.value

/-- Model of `class Square`: a pair of a `File` and a `Rank`
(bitboard.hpp, lines 55-63). -/
structure Square where
  file : File
  rank : Rank
  deriving DecidableEq, Repr

/-- Model of the implicit conversion `operator File()` of `Square`. -/
def Square.toFile (s : Square) : File := s.file

/-- Model of the implicit conversion `operator Rank()` of `Square`. -/
def Square.toRank (s : Square) : Rank := s.rank

/-- Model of `coordinates_to_index(file, rank, max_files)`
(bitboard.hpp, lines 92-94): `rank * max_files + file`. -/
def coordinates_to_index (file rank max_files : Nat) : Nat :=
  rank * max_files + file

/-- Message of the exception thrown when the file is out of range
(bitboard.hpp, line 149). -/
def fileTooLarge : String := "Requested file is too large."

/-- Message of the exception thrown when the rank is out of range
(bitboard.hpp, line 152). -/
def rankTooLarge : String := "Requested rank is too large."

/-- Number of bits held by the word array of a `std::bitset` with n
logical bits: the libstdc++ base class stores `(n + 63) / 64` words of 64
bits each, so a bitset with zero logical bits stores no words at all. -/
def storage_bits (n : Nat) : Nat :=
  ((n + 63) / 64) * 64

/-- Message of the `std::out_of_range` raised by the libstdc++
`_Base_bitset<0>::_M_getword` when a bit of a zero-length bitset is
written.  The member it escapes through is declared noexcept, so in the
running program the throw terminates the process; the model only needs
that the call does not return normally, and records it as this error. -/
def getwordErr : String := "_Base_bitset::_M_getword"

/-- Model of `bitboard<files_, ranks_, always_check_range_>`: the
`std::bitset<files_ * ranks_>` member `fields` is modelled as a total
function from physical bit offsets to `Bool`. -/
structure bitboard (files_ ranks_ : Nat) (always_check_range_ : Bool) where
  fields : Nat → Bool

/-- Model of `bitboard::assert_field_coordinates(File, Rank)`
(bitboard.hpp, lines 147-154): the file bound is checked first, then the
rank bound; a violation throws `std::out_of_range` with the matching
message. -/
def assert_field_coordinates (files_ ranks_ : Nat) (file : File) (rank : Rank) :
    Except String Unit :=
  if file.toNat ≥ files_ then Except.error fileTooLarge
  else if rank.toNat ≥ ranks_ then Except.error rankTooLarge
  else Except.ok ()

/-- Model of `bitboard::make_index(File, Rank)` (bitboard.hpp, lines
137-145): computes `coordinates_to_index` and, only when
`always_check_range_` is true, validates the coordinates. -/
def make_index (files_ ranks_ : Nat) (always_check_range_ : Bool)
    (file : File) (rank : Rank) : Except String Nat :=
  let pos := coordinates_to_index file.toNat rank.toNat files_
  if always_check_range_ then
    match assert_field_coordinates files_ ranks_ file rank with
    | Except.ok _ => Except.ok pos
    | Except.error e => Except.error e
  else Except.ok pos

namespace bitboard

variable {files_ ranks_ : Nat} {always_check_range_ : Bool}

/-- Model of the default constructor `bitboard() = default`: the
`std::bitset` member is zero-initialized. -/
def empty (files_ ranks_ : Nat) (always_check_range_ : Bool) :
    bitboard files_ ranks_ always_check_range_ :=
  ⟨fun _ => false⟩

/-- Model of `bitboard::size()` (bitboard.hpp, line 196):
`fields.size()`, which for `std::bitset<files_ * ranks_>` is
`files_ * ranks_`. -/
def size (_ : bitboard files_ ranks_ always_check_range_) : Nat :=
  files_ * ranks_

/-- Model of `bitboard::capacity()` (bitboard.hpp, line 212):
`sizeof(fields) * 8`.  For a nonzero number of bits the bitset stores an
array of `(files_ * ranks_ + 63) / 64` native 64-bit words; for zero bits
the libstdc++ `std::bitset<0>` is an empty class of size one byte, so
`sizeof(fields) * 8` is 8 there. -/
def capacity (_ : bitboard files_ ranks_ always_check_range_) : Nat :=
  if files_ * ranks_ = 0 then 8 else storage_bits (files_ * ranks_)

/-- Model of the whole-board `bitboard::set()` (bitboard.hpp, lines
219-222): `std::bitset::set` sets every logical bit and keeps the slack
bits of the last word zero. -/
def set_all (_ : bitboard files_ ranks_ always_check_range_) :
    bitboard files_ ranks_ always_check_range_ :=
  ⟨fun i => decide (i < files_ * ranks_)⟩

/-- Model of the whole-board `bitboard::reset()` (bitboard.hpp, lines
254-257): `std::bitset::reset` clears every word. -/
def reset_all (_ : bitboard files_ ranks_ always_check_range_) :
    bitboard files_ ranks_ always_check_range_ :=
  ⟨fun _ => false⟩

/-- Model of `bitboard::set(File, Rank, bool)` (bitboard.hpp, lines
232-236): computes the index through `make_index` (which may throw) and
writes the bit `fields[index] = value`.  The write goes through the
non-const `operator[]`, whose reference holds `&_M_getword(index)`: on a
zero-length bitset there is no word and `_Base_bitset<0>::_M_getword`
raises instead of returning. -/
def set (b : bitboard files_ ranks_ always_check_range_)
    (file : File) (rank : Rank) (value : Bool) :
    Except String (bitboard files_ ranks_ always_check_range_) :=
  match make_index files_ ranks_ always_check_range_ file rank with
  | Except.ok index =>
    if files_ * ranks_ = 0 then Except.error getwordErr
    else Except.ok ⟨fun i => if i = index then value else b.fields i⟩
  | Except.error e => Except.error e

/-- Model of `bitboard::set(Square, bool)` (bitboard.hpp, lines 245-247):
delegates to `set(File, Rank, bool)` through the implicit conversions of
`Square`. -/
def set_square (b : bitboard files_ ranks_ always_check_range_)
    (square : Square) (value : Bool) :
    Except String (bitboard files_ ranks_ always_check_range_) :=
  b.set square.toFile square.toRank value

/-- Model of `bitboard::reset(File, Rank)` (bitboard.hpp, lines 266-270):
computes the index through `make_index` and writes
`fields[index] = false`, through the same non-const `operator[]` write
path as `set`, including the `_M_getword` raise on a zero-length
bitset. -/
def reset (b : bitboard files_ ranks_ always_check_range_)
    (file : File) (rank : Rank) :
    Except String (bitboard files_ ranks_ always_check_range_) :=
  match make_index files_ ranks_ always_check_range_ file rank with
  | Except.ok index =>
    if files_ * ranks_ = 0 then Except.error getwordErr
    else Except.ok ⟨fun i => if i = index then false else b.fields i⟩
  | Except.error e => Except.error e

/-- Model of `bitboard::reset(Square)` (bitboard.hpp, line 279):
delegates to `reset(File, Rank)` through the implicit conversions of
`Square`. -/
def reset_square (b : bitboard files_ ranks_ always_check_range_)
    (square : Square) :
    Except String (bitboard files_ ranks_ always_check_range_) :=
  b.reset square.toFile square.toRank

/-- Model of `bitboard::get(File, Rank)` (bitboard.hpp, lines 288-291):
computes the index through `make_index` and reads `fields[index]`
through the const `operator[]`; the const `_M_getword` of a zero-length
bitset returns a zero word, so the read yields false there without
raising. -/
def get (b : bitboard files_ ranks_ always_check_range_)
    (file : File) (rank : Rank) : Except String Bool :=
  match make_index files_ ranks_ always_check_range_ file rank with
  | Except.ok index =>
    if files_ * ranks_ = 0 then Except.ok false
    else Except.ok (b.fields index)
  | Except.error e => Except.error e

/-- Model of `bitboard::get(Square)` (bitboard.hpp, lines 299-301):
delegates to `get(File, Rank)` through the implicit conversions of
`Square`. -/
def get_square (b : bitboard files_ ranks_ always_check_range_)
    (square : Square) : Except String Bool :=
  b.get square.toFile square.toRank

/-- Model of `bitboard::test(File, Rank)` (bitboard.hpp, lines 310-314):
computes the position, always validates the coordinates regardless of
`always_check_range_`, and reads `fields[pos]`. -/
def test (b : bitboard files_ ranks_ always_check_range_)
    (file : File) (rank : Rank) : Except String Bool :=
  let pos := coordinates_to_index file.toNat rank.toNat files_
  match assert_field_coordinates files_ ranks_ file rank with
  | Except.ok _ => Except.ok (b.fields pos)
  | Except.error e => Except.error e

/-- Model of `bitboard::test(Square)` (bitboard.hpp, line 319): delegates
to `test(File, Rank)` through the implicit conversions of `Square`. -/
def test_square (b : bitboard files_ ranks_ always_check_range_)
    (square : Square) : Except String Bool :=
  b.test square.toFile square.toRank

/-- Model of `bitboard::to_string(char, char)` (bitboard.hpp, lines
378-382): `std::bitset::to_string` renders the logical bits from the
highest index down to index 0, using the set character for a true bit and
the empty character otherwise. -/
def to_string (b : bitboard files_ ranks_ always_check_range_)
    (empty_character set_character : Char) : String :=
  String.mk (((List.range (files_ * ranks_)).reverse).map
    (fun i => if b.fields i then set_character else empty_character))

/-- Model of `bitboard::all()` (bitboard.hpp, line 389):
`std::bitset::all`, whose `_M_are_all` requires every word below the last
to be all-ones and compares the last word by equality against the mask of
the logical bits: over the stored words it is true exactly when every
logical bit is set and every slack bit is clear. -/
def all (b : bitboard files_ ranks_ always_check_range_) : Bool :=
  (List.range (storage_bits (files_ * ranks_))).all
    (fun i => b.fields i == decide (i < files_ * ranks_))

/-- Model of `bitboard::any()` (bitboard.hpp, line 403):
`std::bitset::any`, whose `_M_is_any` scans the whole stored words, slack
bits included: true exactly when some bit of the allocated words is
set. -/
def any (b : bitboard files_ ranks_ always_check_range_) : Bool :=
  (List.range (storage_bits (files_ * ranks_))).any (fun i => b.fields i)

/-- Model of `bitboard::none()` (bitboard.hpp, line 396):
`std::bitset::none`, the negation of `_M_is_any` over the same whole
words. -/
def none (b : bitboard files_ ranks_ always_check_range_) : Bool :=
  !b.any

end bitboard

/-- Predicate used to state that a modelled call returns normally
(does not throw). -/
def okE {α : Type} : Except String α → Bool
  | Except.ok _ => true
  | Except.error _ => false

/-- Concrete board used as a round-trip example: the 2x3 board whose only
set bit is at index 4, the result of `set(File(0), Rank(2))` on an empty
board. -/
def wb : bitboard 2 3 true :=
  ⟨fun i => if i = 4 then true else false⟩

/-- Concrete permissive-mode board reached from the empty 2x3 board by
`set(File(5), Rank(5))`: its only set bit is the slack bit at index 15,
inside the allocated word but outside the six logical bits. -/
def slackState : bitboard 2 3 false :=
  ⟨fun i => if i = 15 then true else false⟩

theorem assert_ok (F R : Nat) (file : File) (rank : Rank)
    (hf : file.toNat < F) (hr : rank.toNat < R) :
    assert_field_coordinates F R file rank = Except.ok () := by
  unfold assert_field_coordinates
  rw [if_neg (Nat.not_le.mpr hf), if_neg (Nat.not_le.mpr hr)]

theorem assert_file_err (F R : Nat) (file : File) (rank : Rank)
    (hf : F ≤ file.toNat) :
    assert_field_coordinates F R file rank = Except.error fileTooLarge := by
  unfold assert_field_coordinates
  rw [if_pos hf]

theorem assert_rank_err (F R : Nat) (file : File) (rank : Rank)
    (hf : file.toNat < F) (hr : R ≤ rank.toNat) :
    assert_field_coordinates F R file rank = Except.error rankTooLarge := by
  unfold assert_field_coordinates
  rw [if_neg (Nat.not_le.mpr hf), if_pos hr]

theorem make_index_ok (F R : Nat) (c : Bool) (file : File) (rank : Rank)
    (hf : file.toNat < F) (hr : rank.toNat < R) :
    make_index F R c file rank = Except.ok (rank.toNat * F + file.toNat) := by
  unfold make_index
  cases c
  · rfl
  · rw [assert_ok F R file rank hf hr]
    rfl

theorem make_index_unchecked (F R : Nat) (file : File) (rank : Rank) :
    make_index F R false file rank =
      Except.ok (rank.toNat * F + file.toNat) := rfl

theorem make_index_file_err (F R : Nat) (file : File) (rank : Rank)
    (hf : F ≤ file.toNat) :
    make_index F R true file rank = Except.error fileTooLarge := by
  unfold make_index
  rw [assert_file_err F R file rank hf]
  rfl

theorem make_index_rank_err (F R : Nat) (file : File) (rank : Rank)
    (hf : file.toNat < F) (hr : R ≤ rank.toNat) :
    make_index F R true file rank = Except.error rankTooLarge := by
  unfold make_index
  rw [assert_rank_err F R file rank hf hr]
  rfl

theorem index_lt (F R f r : Nat) (hf : f < F) (hr : r < R) :
    r * F + f < F * R :=
  calc r * F + f < r * F + F := Nat.add_lt_add_left hf _
  _ = (r + 1) * F := by ring
  _ ≤ R * F := Nat.mul_le_mul_right F hr
  _ = F * R := Nat.mul_comm R F

theorem index_inj (F f1 f2 r1 r2 : Nat) (hf1 : f1 < F) (hf2 : f2 < F)
    (h : r1 * F + f1 = r2 * F + f2) : f1 = f2 ∧ r1 = r2 := by
  have hF : 0 < F := Nat.lt_of_le_of_lt (Nat.zero_le f1) hf1
  have hm : (r1 * F + f1) % F = (r2 * F + f2) % F := by rw [h]
  rw [Nat.add_comm (r1 * F) f1, Nat.add_comm (r2 * F) f2,
    Nat.add_mul_mod_self_right, Nat.add_mul_mod_self_right,
    Nat.mod_eq_of_lt hf1, Nat.mod_eq_of_lt hf2] at hm
  refine ⟨hm, ?_⟩
  subst hm
  have hrr : r1 * F = r2 * F := by omega
  exact Nat.eq_of_mul_eq_mul_right hF hrr

theorem area_pos (F R a b : Nat) (hf : a < F) (hr : b < R) :
    ¬ (F * R = 0) := by
  have h1 : 0 < F := Nat.lt_of_le_of_lt (Nat.zero_le a) hf
  have h2 : 0 < R := Nat.lt_of_le_of_lt (Nat.zero_le b) hr
  have h3 := Nat.mul_pos h1 h2
  omega

theorem le_storage (n : Nat) : n ≤ storage_bits n := by
  unfold storage_bits
  omega

theorem set_valid (F R : Nat) (c : Bool) (b : bitboard F R c)
    (file : File) (rank : Rank) (v : Bool)
    (hf : file.toNat < F) (hr : rank.toNat < R) :
    b.set file rank v =
      Except.ok ⟨fun i => if i = rank.toNat * F + file.toNat then v
        else b.fields i⟩ := by
  unfold bitboard.set
  rw [make_index_ok F R c file rank hf hr]
  show (if F * R = 0 then Except.error getwordErr
    else Except.ok (bitboard.mk (fun i =>
      if i = rank.toNat * F + file.toNat then v else b.fields i))) =
    Except.ok (bitboard.mk (fun i =>
      if i = rank.toNat * F + file.toNat then v else b.fields i))
  rw [if_neg (area_pos F R file.toNat rank.toNat hf hr)]

theorem reset_valid (F R : Nat) (c : Bool) (b : bitboard F R c)
    (file : File) (rank : Rank)
    (hf : file.toNat < F) (hr : rank.toNat < R) :
    b.reset file rank =
      Except.ok ⟨fun i => if i = rank.toNat * F + file.toNat then false
        else b.fields i⟩ := by
  unfold bitboard.reset
  rw [make_index_ok F R c file rank hf hr]
  show (if F * R = 0 then Except.error getwordErr
    else Except.ok (bitboard.mk (fun i =>
      if i = rank.toNat * F + file.toNat then false else b.fields i))) =
    Except.ok (bitboard.mk (fun i =>
      if i = rank.toNat * F + file.toNat then false else b.fields i))
  rw [if_neg (area_pos F R file.toNat rank.toNat hf hr)]

theorem get_valid (F R : Nat) (c : Bool) (b : bitboard F R c)
    (file : File) (rank : Rank)
    (hf : file.toNat < F) (hr : rank.toNat < R) :
    b.get file rank =
      Except.ok (b.fields (rank.toNat * F + file.toNat)) := by
  unfold bitboard.get
  rw [make_index_ok F R c file rank hf hr]
  show (if F * R = 0 then Except.ok false
    else Except.ok (b.fields (rank.toNat * F + file.toNat))) =
    Except.ok (b.fields (rank.toNat * F + file.toNat))
  rw [if_neg (area_pos F R file.toNat rank.toNat hf hr)]

theorem set_unchecked_pos (F R : Nat) (b : bitboard F R false)
    (file : File) (rank : Rank) (v : Bool) (hpos : ¬ (F * R = 0)) :
    b.set file rank v =
      Except.ok ⟨fun i => if i = rank.toNat * F + file.toNat then v
        else b.fields i⟩ := by
  unfold bitboard.set
  rw [make_index_unchecked F R file rank]
  show (if F * R = 0 then Except.error getwordErr
    else Except.ok (bitboard.mk (fun i =>
      if i = rank.toNat * F + file.toNat then v else b.fields i))) =
    Except.ok (bitboard.mk (fun i =>
      if i = rank.toNat * F + file.toNat then v else b.fields i))
  rw [if_neg hpos]

theorem reset_unchecked_pos (F R : Nat) (b : bitboard F R false)
    (file : File) (rank : Rank) (hpos : ¬ (F * R = 0)) :
    b.reset file rank =
      Except.ok ⟨fun i => if i = rank.toNat * F + file.toNat then false
        else b.fields i⟩ := by
  unfold bitboard.reset
  rw [make_index_unchecked F R file rank]
  show (if F * R = 0 then Except.error getwordErr
    else Except.ok (bitboard.mk (fun i =>
      if i = rank.toNat * F + file.toNat then false else b.fields i))) =
    Except.ok (bitboard.mk (fun i =>
      if i = rank.toNat * F + file.toNat then false else b.fields i))
  rw [if_neg hpos]

theorem get_unchecked_pos (F R : Nat) (b : bitboard F R false)
    (file : File) (rank : Rank) (hpos : ¬ (F * R = 0)) :
    b.get file rank =
      Except.ok (b.fields (rank.toNat * F + file.toNat)) := by
  unfold bitboard.get
  rw [make_index_unchecked F R file rank]
  show (if F * R = 0 then Except.ok false
    else Except.ok (b.fields (rank.toNat * F + file.toNat))) =
    Except.ok (b.fields (rank.toNat * F + file.toNat))
  rw [if_neg hpos]

/-- C1: for every bitboard with CheckRange true, each coordinate-addressed
accessor (get, set, reset, in both the File+Rank and the Square form)
throws OutOfRange with the file message when the file is at least the
number of files, throws OutOfRange with the rank message when the file is
valid and the rank is at least the number of ranks, and returns normally
on valid coordinates. -/
theorem strict_mode_bounds (F R f r : Nat) (v : Bool) (b : bitboard F R true) :
    (F ≤ f →
      b.get (File.mk f) (Rank.mk r) = Except.error fileTooLarge ∧
      b.set (File.mk f) (Rank.mk r) v = Except.error fileTooLarge ∧
      b.reset (File.mk f) (Rank.mk r) = Except.error fileTooLarge ∧
      b.get_square (Square.mk (File.mk f) (Rank.mk r)) = Except.error fileTooLarge ∧
      b.set_square (Square.mk (File.mk f) (Rank.mk r)) v = Except.error fileTooLarge ∧
      b.reset_square (Square.mk (File.mk f) (Rank.mk r)) = Except.error fileTooLarge) ∧
    (f < F → R ≤ r →
      b.get (File.mk f) (Rank.mk r) = Except.error rankTooLarge ∧
      b.set (File.mk f) (Rank.mk r) v = Except.error rankTooLarge ∧
      b.reset (File.mk f) (Rank.mk r) = Except.error rankTooLarge ∧
      b.get_square (Square.mk (File.mk f) (Rank.mk r)) = Except.error rankTooLarge ∧
      b.set_square (Square.mk (File.mk f) (Rank.mk r)) v = Except.error rankTooLarge ∧
      b.reset_square (Square.mk (File.mk f) (Rank.mk r)) = Except.error rankTooLarge) ∧
    (f < F → r < R →
      okE (b.get (File.mk f) (Rank.mk r)) = true ∧
      okE (b.set (File.mk f) (Rank.mk r) v) = true ∧
      okE (b.reset (File.mk f) (Rank.mk r)) = true ∧
      okE (b.get_square (Square.mk (File.mk f) (Rank.mk r))) = true ∧
      okE (b.set_square (Square.mk (File.mk f) (Rank.mk r)) v) = true ∧
      okE (b.reset_square (Square.mk (File.mk f) (Rank.mk r))) = true) := by
  refine ⟨fun hf => ?_, fun hf hr => ?_, fun hf hr => ?_⟩
  · have h := make_index_file_err F R (File.mk f) (Rank.mk r) hf
    simp [bitboard.get, bitboard.set, bitboard.reset, bitboard.get_square,
      bitboard.set_square, bitboard.reset_square, Square.toFile, Square.toRank, h]
  · have h := make_index_rank_err F R (File.mk f) (Rank.mk r) hf hr
    simp [bitboard.get, bitboard.set, bitboard.reset, bitboard.get_square,
      bitboard.set_square, bitboard.reset_square, Square.toFile, Square.toRank, h]
  · have h := make_index_ok F R true (File.mk f) (Rank.mk r) hf hr
    have hne := area_pos F R f r hf hr
    simp [bitboard.get, bitboard.set, bitboard.reset, bitboard.get_square,
      bitboard.set_square, bitboard.reset_square, Square.toFile, Square.toRank,
      h, hne, okE]

/-- Witness for C1: on a strict 2x3 board, a too-large file reports the
file message, a too-large rank reports the rank message, and a valid
access returns normally. -/
theorem strict_mode_bounds_witness :
    (bitboard.empty 2 3 true).set (File.mk 5) (Rank.mk 0) true =
      Except.error fileTooLarge ∧
    (bitboard.empty 2 3 true).get (File.mk 0) (Rank.mk 7) =
      Except.error rankTooLarge ∧
    okE ((bitboard.empty 2 3 true).get (File.mk 1) (Rank.mk 2)) = true := by
  refine ⟨?_, ?_, ?_⟩
  · exact ((strict_mode_bounds 2 3 5 0 true (bitboard.empty 2 3 true)).1
      (by decide)).2.1
  · exact (((strict_mode_bounds 2 3 0 7 true (bitboard.empty 2 3 true)).2.1
      (by decide) (by decide))).1
  · exact (((strict_mode_bounds 2 3 1 2 true (bitboard.empty 2 3 true)).2.2
      (by decide) (by decide))).1

theorem test_ok (F R : Nat) (c : Bool) (b : bitboard F R c)
    (file : File) (rank : Rank) (hf : file.toNat < F) (hr : rank.toNat < R) :
    b.test file rank =
      Except.ok (b.fields (coordinates_to_index file.toNat rank.toNat F)) := by
  unfold bitboard.test
  rw [assert_ok F R file rank hf hr]

theorem test_file_err (F R : Nat) (c : Bool) (b : bitboard F R c)
    (file : File) (rank : Rank) (hf : F ≤ file.toNat) :
    b.test file rank = Except.error fileTooLarge := by
  unfold bitboard.test
  rw [assert_file_err F R file rank hf]

theorem test_rank_err (F R : Nat) (c : Bool) (b : bitboard F R c)
    (file : File) (rank : Rank) (hf : file.toNat < F) (hr : R ≤ rank.toNat) :
    b.test file rank = Except.error rankTooLarge := by
  unfold bitboard.test
  rw [assert_rank_err F R file rank hf hr]

/-- C2: on every bitboard, independently of the CheckRange policy, `test`
(in both the File+Rank and the Square form) throws OutOfRange exactly when
the file is at least the number of files or the rank is at least the
number of ranks, and on valid coordinates returns the current bit value
without throwing. -/
theorem test_always_validates (F R : Nat) (c : Bool) (b : bitboard F R c)
    (f r : Nat) :
    ((∃ e, b.test (File.mk f) (Rank.mk r) = Except.error e) ↔ F ≤ f ∨ R ≤ r) ∧
    ((∃ e, b.test_square (Square.mk (File.mk f) (Rank.mk r)) = Except.error e) ↔
      F ≤ f ∨ R ≤ r) ∧
    (f < F → r < R →
      b.test (File.mk f) (Rank.mk r) =
        Except.ok (b.fields (coordinates_to_index f r F)) ∧
      b.test_square (Square.mk (File.mk f) (Rank.mk r)) =
        Except.ok (b.fields (coordinates_to_index f r F))) := by
  have hsq : b.test_square (Square.mk (File.mk f) (Rank.mk r)) =
      b.test (File.mk f) (Rank.mk r) := rfl
  have hiff : (∃ e, b.test (File.mk f) (Rank.mk r) = Except.error e) ↔
      F ≤ f ∨ R ≤ r := by
    constructor
    · intro hex
      by_contra hno
      push_neg at hno
      rw [test_ok F R c b (File.mk f) (Rank.mk r) hno.1 hno.2] at hex
      obtain ⟨e, he⟩ := hex
      exact Except.noConfusion he
    · intro hor
      by_cases hf : F ≤ f
      · exact ⟨fileTooLarge, test_file_err F R c b (File.mk f) (Rank.mk r) hf⟩
      · have hr : R ≤ r := by
          rcases hor with h1 | h1
          · exact absurd h1 hf
          · exact h1
        exact ⟨rankTooLarge,
          test_rank_err F R c b (File.mk f) (Rank.mk r) (Nat.lt_of_not_le hf) hr⟩
  refine ⟨hiff, by rw [hsq]; exact hiff, fun hf hr => ?_⟩
  have h := test_ok F R c b (File.mk f) (Rank.mk r) hf hr
  exact ⟨h, by rw [hsq]; exact h⟩

/-- Witness for C2: on a permissive 2x3 board, `test` throws for an
out-of-range file, and returns the (false) current bit for a valid
coordinate pair. -/
theorem test_always_validates_witness :
    (∃ e, (bitboard.empty 2 3 false).test (File.mk 2) (Rank.mk 0) =
      Except.error e) ∧
    (bitboard.empty 2 3 false).test (File.mk 1) (Rank.mk 2) =
      Except.ok ((bitboard.empty 2 3 false).fields (coordinates_to_index 1 2 2)) := by
  refine ⟨?_, ?_⟩
  · exact (test_always_validates 2 3 false (bitboard.empty 2 3 false) 2 0).1.mpr
      (Or.inl (by decide))
  · exact ((test_always_validates 2 3 false (bitboard.empty 2 3 false) 1 2).2.2
      (by decide) (by decide)).1

/-- C5 (amended): on every bitboard instantiation, `size()` equals Files
times Ranks and `capacity()` is at least `size()`; `capacity()` is a
multiple of the native word bit-width whenever the board area is nonzero
(a zero-area board is the one-byte empty bitset object, so its capacity
is 8 bits); and the computed index of every valid coordinate pair is rank
times Files plus file. -/
theorem size_capacity_invariants (F R : Nat) (c : Bool) (b : bitboard F R c) :
    b.size = F * R ∧ b.size ≤ b.capacity ∧
    (0 < F * R → b.capacity % wordBits = 0) ∧
    (∀ f r, f < F → r < R → coordinates_to_index f r F = r * F + f) := by
  refine ⟨rfl, ?_, ?_, fun f r hf hr => rfl⟩
  · show F * R ≤ if F * R = 0 then 8 else storage_bits (F * R)
    by_cases h0 : F * R = 0
    · rw [if_pos h0, h0]
      omega
    · rw [if_neg h0]
      exact le_storage (F * R)
  · intro hpos
    show (if F * R = 0 then 8 else storage_bits (F * R)) % wordBits = 0
    rw [if_neg (by omega)]
    show ((F * R + 63) / 64) * 64 % 64 = 0
    generalize (F * R + 63) / 64 = k
    omega

/-- Counterexample for C5 as stated: on the zero-area board
bitboard<0,3>, `size()` is 0 but `capacity()` is the 8 bits of the
one-byte empty `std::bitset<0>` object, which is not a multiple of the
64-bit native word. -/
theorem size_capacity_invariants_counterexample :
    (bitboard.empty 0 3 true).size = 0 ∧
    (bitboard.empty 0 3 true).capacity = 8 ∧
    ¬ ((bitboard.empty 0 3 true).capacity % wordBits = 0) := by
  refine ⟨rfl, rfl, ?_⟩
  decide

/-- Witness for C5: the invariants evaluated on the 10x10 board, whose
100 bits occupy two 64-bit words, plus the index of file 3, rank 5 on the
8x8 board. -/
theorem size_capacity_invariants_witness :
    (bitboard.empty 10 10 true).size = 100 ∧
    (bitboard.empty 10 10 true).capacity % wordBits = 0 ∧
    coordinates_to_index 3 5 8 = 43 := by
  have h10 := size_capacity_invariants 10 10 true (bitboard.empty 10 10 true)
  have h8 := size_capacity_invariants 8 8 true (bitboard.empty 8 8 true)
  refine ⟨h10.1, h10.2.2.1 (by decide), ?_⟩
  rw [h8.2.2.2 3 5 (by decide) (by decide)]

/-- C10: whenever both coordinates are out of range, every validating
access (the strict-mode get, set and reset in both argument forms, and
`test` under either policy) throws OutOfRange with the file message: the
file bound is checked before the rank bound. -/
theorem both_oob_reports_file (F R f r : Nat) (c : Bool) (v : Bool)
    (bs : bitboard F R true) (b : bitboard F R c)
    (hf : F ≤ f) (hr : R ≤ r) :
    bs.get (File.mk f) (Rank.mk r) = Except.error fileTooLarge ∧
    bs.set (File.mk f) (Rank.mk r) v = Except.error fileTooLarge ∧
    bs.reset (File.mk f) (Rank.mk r) = Except.error fileTooLarge ∧
    bs.get_square (Square.mk (File.mk f) (Rank.mk r)) = Except.error fileTooLarge ∧
    bs.set_square (Square.mk (File.mk f) (Rank.mk r)) v = Except.error fileTooLarge ∧
    bs.reset_square (Square.mk (File.mk f) (Rank.mk r)) = Except.error fileTooLarge ∧
    b.test (File.mk f) (Rank.mk r) = Except.error fileTooLarge ∧
    b.test_square (Square.mk (File.mk f) (Rank.mk r)) = Except.error fileTooLarge := by
  have h := make_index_file_err F R (File.mk f) (Rank.mk r) hf
  have ht := test_file_err F R c b (File.mk f) (Rank.mk r) hf
  simp [bitboard.get, bitboard.set, bitboard.reset, bitboard.get_square,
    bitboard.set_square, bitboard.reset_square, bitboard.test_square,
    Square.toFile, Square.toRank, h, ht]

/-- Witness for C10: with file 9 and rank 9 on a 2x3 board, the strict set
and the permissive-mode `test` both report the file message. -/
theorem both_oob_reports_file_witness :
    (bitboard.empty 2 3 true).set (File.mk 9) (Rank.mk 9) true =
      Except.error fileTooLarge ∧
    (bitboard.empty 2 3 false).test (File.mk 9) (Rank.mk 9) =
      Except.error fileTooLarge := by
  have h := both_oob_reports_file 2 3 9 9 false true
    (bitboard.empty 2 3 true) (bitboard.empty 2 3 false) (by decide) (by decide)
  exact ⟨h.2.1, h.2.2.2.2.2.2.1⟩

/-- C3: on every bitboard, setting a valid coordinate pair to a boolean
value makes the following get of that pair return the value, and leaves
the get result of every other valid coordinate pair unchanged. -/
theorem set_get_roundtrip (F R : Nat) (c : Bool) (b b2 : bitboard F R c)
    (f r : Nat) (v : Bool) (hf : f < F) (hr : r < R)
    (hset : b.set (File.mk f) (Rank.mk r) v = Except.ok b2) :
    b2.get (File.mk f) (Rank.mk r) = Except.ok v ∧
    ∀ f2 r2, f2 < F → r2 < R → (f2, r2) ≠ (f, r) →
      b2.get (File.mk f2) (Rank.mk r2) = b.get (File.mk f2) (Rank.mk r2) := by
  rw [set_valid F R c b (File.mk f) (Rank.mk r) v hf hr] at hset
  have hb : b2 = ⟨fun i => if i = r * F + f then v else b.fields i⟩ := by
    injection hset with h2
    exact h2.symm
  subst hb
  constructor
  · rw [get_valid F R c _ (File.mk f) (Rank.mk r) hf hr]
    simp [File.toNat, Rank.toNat]
  · intro f2 r2 hf2 hr2 hne
    rw [get_valid F R c _ (File.mk f2) (Rank.mk r2) hf2 hr2,
      get_valid F R c b (File.mk f2) (Rank.mk r2) hf2 hr2]
    have hidx : r2 * F + f2 ≠ r * F + f := by
      intro he
      have hp := index_inj F f2 f r2 r hf2 hf he
      exact hne (by rw [hp.1, hp.2])
    simp only [File.toNat, Rank.toNat]
    rw [if_neg hidx]

/-- Witness for C3: on a strict 2x3 board, setting file 0, rank 2 yields
the board `wb`, where that cell reads true and the cell at file 1, rank 0
reads what it read before. -/
theorem set_get_roundtrip_witness :
    wb.get (File.mk 0) (Rank.mk 2) = Except.ok true ∧
    wb.get (File.mk 1) (Rank.mk 0) =
      (bitboard.empty 2 3 true).get (File.mk 1) (Rank.mk 0) := by
  have h := set_get_roundtrip 2 3 true (bitboard.empty 2 3 true) wb 0 2 true
    (by decide) (by decide) (by rfl)
  exact ⟨h.1, h.2 1 0 (by decide) (by decide) (by decide)⟩

/-- C4 (amended): on a permissive bitboard with nonzero logical area
whose size is below its capacity, a get, set or reset whose computed
index lands in the slack region (at least size, below capacity) returns
normally, and afterwards the get result of every valid coordinate pair is
unchanged.  The nonzero-area restriction is forced by the zero-area
boards, where the same slack write reaches the raising
`_Base_bitset<0>::_M_getword`. -/
theorem permissive_slack_safety (F R f r : Nat) (v : Bool)
    (b : bitboard F R false)
    (hpos : 0 < b.size)
    (hslack : b.size < b.capacity)
    (hge : b.size ≤ coordinates_to_index f r F)
    (hlt : coordinates_to_index f r F < b.capacity) :
    (∃ x, b.get (File.mk f) (Rank.mk r) = Except.ok x) ∧
    (∃ b2, b.set (File.mk f) (Rank.mk r) v = Except.ok b2 ∧
      ∀ f2 r2, f2 < F → r2 < R →
        b2.get (File.mk f2) (Rank.mk r2) = b.get (File.mk f2) (Rank.mk r2)) ∧
    (∃ b2, b.reset (File.mk f) (Rank.mk r) = Except.ok b2 ∧
      ∀ f2 r2, f2 < F → r2 < R →
        b2.get (File.mk f2) (Rank.mk r2) = b.get (File.mk f2) (Rank.mk r2)) := by
  have hpos2 : ¬ (F * R = 0) := by
    have h : 0 < F * R := hpos
    omega
  have hge2 : F * R ≤ r * F + f := hge
  refine ⟨⟨b.fields (r * F + f),
      get_unchecked_pos F R b (File.mk f) (Rank.mk r) hpos2⟩,
    ⟨⟨fun i => if i = r * F + f then v else b.fields i⟩,
      set_unchecked_pos F R b (File.mk f) (Rank.mk r) v hpos2, ?_⟩,
    ⟨⟨fun i => if i = r * F + f then false else b.fields i⟩,
      reset_unchecked_pos F R b (File.mk f) (Rank.mk r) hpos2, ?_⟩⟩
  · intro f2 r2 hf2 hr2
    have hlt2 := index_lt F R f2 r2 hf2 hr2
    have hne : r2 * F + f2 ≠ r * F + f := by omega
    rw [get_unchecked_pos F R
        ⟨fun i => if i = r * F + f then v else b.fields i⟩
        (File.mk f2) (Rank.mk r2) hpos2,
      get_unchecked_pos F R b (File.mk f2) (Rank.mk r2) hpos2]
    show Except.ok (if r2 * F + f2 = r * F + f then v
      else b.fields (r2 * F + f2)) = Except.ok (b.fields (r2 * F + f2))
    rw [if_neg hne]
  · intro f2 r2 hf2 hr2
    have hlt2 := index_lt F R f2 r2 hf2 hr2
    have hne : r2 * F + f2 ≠ r * F + f := by omega
    rw [get_unchecked_pos F R
        ⟨fun i => if i = r * F + f then false else b.fields i⟩
        (File.mk f2) (Rank.mk r2) hpos2,
      get_unchecked_pos F R b (File.mk f2) (Rank.mk r2) hpos2]
    show Except.ok (if r2 * F + f2 = r * F + f then false
      else b.fields (r2 * F + f2)) = Except.ok (b.fields (r2 * F + f2))
    rw [if_neg hne]

/-- Counterexample for C4 as stated: the permissive zero-area board
bitboard<0,3,false> satisfies every hypothesis of the claim (size 0 is
below capacity 8, and the computed index 0 of file 0, rank 0 lies in the
slack range), yet the set does not return normally: the write reaches
`_Base_bitset<0>::_M_getword`, which has no word to return and crashes
the program. -/
theorem permissive_slack_safety_counterexample :
    (bitboard.empty 0 3 false).size < (bitboard.empty 0 3 false).capacity ∧
    (bitboard.empty 0 3 false).size ≤ coordinates_to_index 0 0 0 ∧
    coordinates_to_index 0 0 0 < (bitboard.empty 0 3 false).capacity ∧
    okE ((bitboard.empty 0 3 false).set (File.mk 0) (Rank.mk 0) true) = false := by
  decide

/-- Witness for C4: on the permissive 2x3 board (6 logical bits inside a
64-bit word), the access at file 5, rank 5 has index 15, lands in the
slack, succeeds, and leaves every valid cell unchanged. -/
theorem permissive_slack_safety_witness :
    (∃ x, (bitboard.empty 2 3 false).get (File.mk 5) (Rank.mk 5) =
      Except.ok x) ∧
    (∃ b2, (bitboard.empty 2 3 false).set (File.mk 5) (Rank.mk 5) true =
        Except.ok b2 ∧
      ∀ f2 r2, f2 < 2 → r2 < 3 →
        b2.get (File.mk f2) (Rank.mk r2) =
          (bitboard.empty 2 3 false).get (File.mk f2) (Rank.mk r2)) := by
  have h := permissive_slack_safety 2 3 5 5 true (bitboard.empty 2 3 false)
    (by decide) (by decide) (by decide) (by decide)
  exact ⟨h.1, h.2.1⟩

/-- C6: on every bitboard and pair of display characters, `to_string`
yields a string of length `size()` whose position k holds the set
character exactly when the bit at index size minus 1 minus k is set
(index 0 is printed last); moreover the 2x3 example renders "------" when
empty, "-----x" after set(File(0), Rank(0)), and "-x----" after
additionally set(File(0), Rank(2)) and clearing (0, 0). -/
theorem to_string_spec (F R : Nat) (c : Bool) (b : bitboard F R c)
    (e s : Char) :
    ((b.to_string e s).length = b.size ∧
      ∀ k, k < b.size →
        (b.to_string e s).data.getD k e =
          if b.fields (b.size - 1 - k) = true then s else e) ∧
    (bitboard.empty 2 3 true).to_string '-' 'x' = "------" ∧
    Except.map (fun b2 => b2.to_string '-' 'x')
      ((bitboard.empty 2 3 true).set (File.mk 0) (Rank.mk 0) true) =
      Except.ok ("-----x") ∧
    Except.map (fun b2 => b2.to_string '-' 'x')
      (do
        let b1 ← (bitboard.empty 2 3 true).set (File.mk 0) (Rank.mk 0) true
        let b2 ← b1.set (File.mk 0) (Rank.mk 2) true
        b2.set (File.mk 0) (Rank.mk 0) false) =
      Except.ok ("-x----") := by
  have hlen : (b.to_string e s).data.length = F * R := by
    simp [bitboard.to_string]
  refine ⟨⟨hlen, fun k hk => ?_⟩, by rfl, by rfl, by rfl⟩
  have hk2 : k < F * R := hk
  have hk3 : F * R - 1 - k < F * R := by omega
  show (String.mk (((List.range (F * R)).reverse).map
    (fun i => if b.fields i then s else e))).data.getD k e = _
  rw [List.getD_eq_getElem?_getD, List.getElem?_map,
    List.getElem?_reverse (by simpa using hk2), List.length_range,
    List.getElem?_range hk3]
  rfl

/-- Witness for C6: position 1 of the rendering of the example board `wb`
holds the set character, because bit 4 of the six-bit board is set. -/
theorem to_string_spec_witness :
    (wb.to_string '-' 'x').data.getD 1 '-' = 'x' := by
  rw [((to_string_spec 2 3 true wb '-' 'x').1.2 1 (by decide))]
  rfl

/-- C7: on every bitboard, the Square forms of set, get, reset and test
behave exactly as the File+Rank forms applied to the components of the
square, because each delegates through the conversions of `Square`. -/
theorem square_coordinate_equiv (F R : Nat) (c : Bool) (b : bitboard F R c)
    (f r : Nat) (v : Bool) :
    b.set_square (Square.mk (File.mk f) (Rank.mk r)) v =
      b.set (File.mk f) (Rank.mk r) v ∧
    b.get_square (Square.mk (File.mk f) (Rank.mk r)) =
      b.get (File.mk f) (Rank.mk r) ∧
    b.reset_square (Square.mk (File.mk f) (Rank.mk r)) =
      b.reset (File.mk f) (Rank.mk r) ∧
    b.test_square (Square.mk (File.mk f) (Rank.mk r)) =
      b.test (File.mk f) (Rank.mk r) :=
  ⟨rfl, rfl, rfl, rfl⟩

/-- C8 (amended): on every bitboard, the whole-board set makes `all()`
true and the whole-board reset makes `none()` true; in every state whose
slack bits (indices at least size) are all clear — in particular every
state reached without permissive out-of-range writes — `any()` is the
disjunction of the bits of the valid cells; and `any()` is true right
after any single set(f, r, true), in any state.  The slack-clear
restriction on the disjunction reading is forced by `any()` scanning the
whole stored words. -/
theorem aggregate_consistency (F R : Nat) (c : Bool) (b : bitboard F R c) :
    b.set_all.all = true ∧
    b.reset_all.none = true ∧
    ((∀ i, F * R ≤ i → b.fields i = false) →
      (b.any = true ↔ ∃ f r, f < F ∧ r < R ∧
        b.fields (coordinates_to_index f r F) = true)) ∧
    (∀ f r b2, f < F → r < R →
      b.set (File.mk f) (Rank.mk r) true = Except.ok b2 →
      b2.any = true) := by
  refine ⟨?_, ?_, ?_, ?_⟩
  · simp [bitboard.set_all, bitboard.all, List.all_eq_true, List.mem_range]
  · simp [bitboard.reset_all, bitboard.none, bitboard.any]
  · intro hclean
    unfold bitboard.any
    rw [List.any_eq_true]
    constructor
    · rintro ⟨i, hi, hbit⟩
      rw [List.mem_range] at hi
      by_cases hiN : i < F * R
      · have hF : 0 < F := by
          rcases Nat.eq_zero_or_pos F with h0 | h0
          · rw [h0, Nat.zero_mul] at hiN
            exact absurd hiN (Nat.not_lt_zero i)
          · exact h0
        refine ⟨i % F, i / F, Nat.mod_lt i hF, ?_, ?_⟩
        · rw [Nat.div_lt_iff_lt_mul hF]
          rw [Nat.mul_comm F R] at hiN
          exact hiN
        · show b.fields (i / F * F + i % F) = true
          rw [Nat.mul_comm (i / F) F, Nat.div_add_mod i F]
          exact hbit
      · rw [hclean i (Nat.le_of_not_lt hiN)] at hbit
        exact Bool.noConfusion hbit
    · rintro ⟨f, r, hf, hr, hbit⟩
      refine ⟨r * F + f, List.mem_range.mpr ?_, hbit⟩
      exact Nat.lt_of_lt_of_le (index_lt F R f r hf hr) (le_storage (F * R))
  · intro f r b2 hf hr hset
    rw [set_valid F R c b (File.mk f) (Rank.mk r) true hf hr] at hset
    have hb : b2 = ⟨fun i => if i = r * F + f then true else b.fields i⟩ := by
      injection hset with h2
      exact h2.symm
    subst hb
    unfold bitboard.any
    rw [List.any_eq_true]
    refine ⟨r * F + f, List.mem_range.mpr
      (Nat.lt_of_lt_of_le (index_lt F R f r hf hr) (le_storage (F * R))), ?_⟩
    simp

/-- Counterexample for C8 as stated: `slackState` is reached from the
empty permissive 2x3 board by the single sanctioned call
set(File(5), Rank(5)), whose index 15 lands in the allocated slack; there
`any()` scans the whole stored word and returns true although no valid
cell is set, so `any()` is not the disjunction of get over the valid
cells in every state. -/
theorem aggregate_consistency_counterexample :
    (bitboard.empty 2 3 false).set (File.mk 5) (Rank.mk 5) true =
      Except.ok slackState ∧
    ¬ ((slackState.any = true) ↔ ∃ f r, f < 2 ∧ r < 3 ∧
      slackState.fields (coordinates_to_index f r 2) = true) := by
  refine ⟨rfl, fun h => ?_⟩
  obtain ⟨f, r, hf, hr, hbit⟩ := h.mp (by decide)
  have hfalse : slackState.fields (coordinates_to_index f r 2) = false := by
    have h1 : f = 0 ∨ f = 1 := by omega
    have h2 : r = 0 ∨ r = 1 ∨ r = 2 := by omega
    rcases h1 with rfl | rfl <;> rcases h2 with rfl | rfl | rfl <;> decide
  rw [hbit] at hfalse
  exact Bool.noConfusion hfalse

/-- Witness for C8: on the strict 2x3 board, the whole-board set makes
`all()` true, the empty board (whose slack bits are clear) has the
disjunction reading of `any()`, and a single set at file 0, rank 1 makes
`any()` true. -/
theorem aggregate_consistency_witness :
    (bitboard.empty 2 3 true).set_all.all = true ∧
    ((bitboard.empty 2 3 true).any = true ↔ ∃ f r, f < 2 ∧ r < 3 ∧
      (bitboard.empty 2 3 true).fields (coordinates_to_index f r 2) = true) ∧
    (bitboard.mk (fun i => if i = 2 then true else false) :
      bitboard 2 3 true).any = true := by
  have h := aggregate_consistency 2 3 true (bitboard.empty 2 3 true)
  exact ⟨h.1, h.2.2.1 (fun i _ => rfl), h.2.2.2 0 1
    ⟨fun i => if i = 2 then true else false⟩ (by decide) (by decide) (by rfl)⟩

end slchess
